import Mathlib

/-!
Verification of the character-budget text finalizer, the retry-with-backoff
loops, and the tweet-posting truncation of the ai-solarpunk-story-bot
repository.

Strings are modelled as `List Char` (Python `str` indexing is by code point).
Python integers are modelled as `Int`, and the float-valued retry delays as
`ℚ` (exact arithmetic standing in for the source's float arithmetic).
-/

/-- Python prefix slice `s[:n]`: for `n ≥ 0` the first `n` elements (all of
`s` when `n ≥ len(s)`); for `n < 0` the slice `s[:len(s)+n]`, empty when
`len(s) + n ≤ 0`. -/
def pyTake (n : Int) (s : List Char) : List Char :=
  if 0 ≤ n then s.take n.toNat else s.take ((s.length : Int) + n).toNat

/-- Python `s.rfind(c)`: the highest index at which `c` occurs in `s`,
or `-1` when `c` does not occur. -/
def rfind : List Char → Char → Int
  | [], _ => -1
  | x :: xs, c =>
    if 0 ≤ rfind xs c then rfind xs c + 1
    else if x = c then 0 else -1

/-- The spec's `FinalizedText` record: the final string plus the flag telling
whether the cut landed on sentence-ending punctuation (or nothing was cut)
rather than being a hard cut. -/
structure FinalizedText where
  text : List Char
  truncated_cleanly : Bool
deriving Repr, DecidableEq

/-- The budget finalizer, embedded from `StoryGenerator.generate_story`
(src/src/story_generator.py lines 184-198): if the text exceeds the limit,
truncate at the last `.` in `story[:max_chars]` when its index is `> 0`;
otherwise try `!` then `?` the same way; otherwise hard-truncate to
`story[:max_chars]`.  The `truncated_cleanly` flag is the spec's annotation
of the branches: `true` on the unchanged and punctuation branches, `false`
on the hard-truncate branch (the source returns only the string). -/
def finalize_text (raw : List Char) (limit : Int) : FinalizedText :=
  if (raw.length : Int) > limit then
    if 0 < rfind (pyTake limit raw) '.' then
      ⟨pyTake (rfind (pyTake limit raw) '.' + 1) raw, true⟩
    else if 0 < rfind (pyTake limit raw) '!' then
      ⟨pyTake (rfind (pyTake limit raw) '!' + 1) raw, true⟩
    else if 0 < rfind (pyTake limit raw) '?' then
      ⟨pyTake (rfind (pyTake limit raw) '?' + 1) raw, true⟩
    else
      ⟨pyTake limit raw, false⟩
  else
    ⟨raw, true⟩

/-- The spec's error class for a nonsensical budget. -/
inductive FinalizeError where
  | invalidBudget
deriving Repr, DecidableEq

/-- The finalizer with an error-capable codomain, recording its raising
behaviour: the source block (story_generator.py lines 184-198) contains no
limit validation and no raise statement on any path, so every branch
returns a value. -/
def finalize_textE (raw : List Char) (limit : Int) :
    Except FinalizeError FinalizedText :=
  if (raw.length : Int) > limit then
    if 0 < rfind (pyTake limit raw) '.' then
      .ok ⟨pyTake (rfind (pyTake limit raw) '.' + 1) raw, true⟩
    else if 0 < rfind (pyTake limit raw) '!' then
      .ok ⟨pyTake (rfind (pyTake limit raw) '!' + 1) raw, true⟩
    else if 0 < rfind (pyTake limit raw) '?' then
      .ok ⟨pyTake (rfind (pyTake limit raw) '?' + 1) raw, true⟩
    else
      .ok ⟨pyTake limit raw, false⟩
  else
    .ok ⟨raw, true⟩

/-- The last-occurrence predicate: `i` is an index of `c` in `s` and no
larger index holds `c`. -/
def lastIdxOf (s : List Char) (c : Char) (i : Nat) : Prop :=
  i < s.length ∧ s.getD i ' ' = c ∧
    ∀ j, j < s.length → i < j → s.getD j ' ' ≠ c

/-- An error escaping a retry loop: `bare` is a re-raised original exception
(only its message), `wrapped` is a freshly constructed exhaustion exception
carrying the attempt count and the last underlying error
(`str(None) `when no attempt ever ran). -/
inductive RaisedError where
  | bare (msg : String)
  | wrapped (attempts : Nat) (lastError : Option String)
deriving Repr, DecidableEq

/-- Observable outcome of one run of `GeminiClient.retry_with_backoff`:
the returned value or raised error, the number of times the wrapped
operation was invoked, and the sleep durations in order. -/
structure RetryOutcome where
  result : Except RaisedError String
  calls : Nat
  waits : List ℚ
deriving Repr

/-- The loop of `GeminiClient.retry_with_backoff` (src/src/api/gemini.py
lines 165-191): `for attempt in range(max_retries)`, try the operation and
return its value; on failure record the exception and, unless this was the
last iteration, sleep `delay` and multiply `delay` by `backoff_factor`.
After the loop, re-raise the recorded last exception if there is one, else
return `""`.  `remaining` is `max_retries - attempt`; the operation is
indexed by the attempt number. -/
def retryLoop (op : Nat → Except String String) :
    Nat → Nat → ℚ → ℚ → Option String → Nat → List ℚ → RetryOutcome
  | 0, _, _, _, lastExc, calls, waits =>
    match lastExc with
    | some e => ⟨.error (.bare e), calls, waits⟩
    | none => ⟨.ok "", calls, waits⟩
  | r + 1, attempt, delay, bf, _, calls, waits =>
    match op attempt with
    | .ok v => ⟨.ok v, calls + 1, waits⟩
    | .error e =>
      match r with
      | 0 => retryLoop op 0 (attempt + 1) delay bf (some e) (calls + 1) waits
      | r' + 1 =>
        retryLoop op (r' + 1) (attempt + 1) (delay * bf) bf (some e)
          (calls + 1) (waits ++ [delay])

/-- `GeminiClient.retry_with_backoff`: run the loop from attempt 0 with
`delay = initial_delay` and no recorded exception.  `range(max_retries)` is
empty when `max_retries ≤ 0`. -/
def retry_with_backoff (op : Nat → Except String String) (max_retries : Int)
    (initial_delay backoff_factor : ℚ) : RetryOutcome :=
  retryLoop op max_retries.toNat 0 initial_delay backoff_factor none 0 []

/-- `ImageGenerator.RETRY_DELAY` (src/src/image_generator.py line 92). -/
def RETRY_DELAY : ℚ := 2

/-- `ImageGenerator.MAX_RETRIES` (src/src/image_generator.py line 91). -/
def MAX_RETRIES : Nat := 3

/-- Observable outcome of the retry loop of `ImageGenerator.generate_image`. -/
structure ImageRunOutcome (α : Type) where
  result : Except RaisedError α
  calls : Nat
  waits : List ℚ

/-- The retry loop of `ImageGenerator.generate_image`
(src/src/image_generator.py lines 232-278): `while attempt < MAX_RETRIES`,
try the operation and return; on failure increment `attempt`, record the
error and, if `attempt < MAX_RETRIES` still holds, sleep
`RETRY_DELAY * attempt`.  After the loop raise a fresh exception carrying
`MAX_RETRIES` and `str(last_error)`.  `remaining` is
`maxRetries - attempt`. -/
def imageRetryLoop (op : Nat → Except String α) (maxRetries : Nat) :
    Nat → Nat → Option String → Nat → List ℚ → ImageRunOutcome α
  | 0, _, lastError, calls, waits =>
    ⟨.error (.wrapped maxRetries lastError), calls, waits⟩
  | r + 1, attempt, _, calls, waits =>
    match op attempt with
    | .ok v => ⟨.ok v, calls + 1, waits⟩
    | .error e =>
      match r with
      | 0 => imageRetryLoop op maxRetries 0 (attempt + 1) (some e) (calls + 1) waits
      | r' + 1 =>
        imageRetryLoop op maxRetries (r' + 1) (attempt + 1) (some e) (calls + 1)
          (waits ++ [RETRY_DELAY * ((attempt : ℚ) + 1)])

/-- The retry skeleton of `ImageGenerator.generate_image`, from
`attempt = 0`, `last_error = None`.  The class fixes
`maxRetries = MAX_RETRIES = 3`; the bound is a parameter here so the loop
can be stated for every bound. -/
def generate_image_retry (op : Nat → Except String α) (maxRetries : Nat) :
    ImageRunOutcome α :=
  imageRetryLoop op maxRetries maxRetries 0 none 0 []

/-- The text normalization of `post_tweet` (src/src/twitter_client.py lines
239-245): text over 280 characters is replaced by its first 277 characters
followed by `"..."`; the payload carries the result. -/
def post_tweet_text (text : List Char) : List Char :=
  if text.length > 280 then text.take 277 ++ ['.', '.', '.'] else text

/-! ## Basic facts about `rfind` and `pyTake` -/

theorem rfind_neg_one_le (s : List Char) (c : Char) : -1 ≤ rfind s c := by
  induction s with
  | nil => simp [rfind]
  | cons x xs ih =>
    simp only [rfind]
    split_ifs <;> omega

theorem rfind_lt_length (s : List Char) (c : Char) :
    rfind s c < (s.length : Int) := by
  induction s with
  | nil => simp [rfind]
  | cons x xs ih =>
    simp only [rfind, List.length_cons]
    split_ifs <;> push_cast <;> omega

theorem le_rfind_of_getD (s : List Char) (c : Char) (j : Nat)
    (hj : j < s.length) (hc : s.getD j ' ' = c) : (j : Int) ≤ rfind s c := by
  induction s generalizing j with
  | nil => simp at hj
  | cons x xs ih =>
    cases j with
    | zero =>
      have hx : x = c := by simpa [List.getD] using hc
      simp only [rfind]
      split_ifs <;> omega
    | succ j' =>
      simp only [List.length_cons] at hj
      have hc' : xs.getD j' ' ' = c := by
        simpa [List.getD] using hc
      have := ih j' (by omega) hc'
      simp only [rfind]
      split_ifs <;> push_cast <;> omega

theorem getD_rfind (s : List Char) (c : Char) (h : 0 ≤ rfind s c) :
    s.getD (rfind s c).toNat ' ' = c := by
  induction s with
  | nil => simp [rfind] at h
  | cons x xs ih =>
    simp only [rfind] at h ⊢
    split_ifs at h ⊢ with h1 h2
    · have := ih h1
      have hnn : (rfind xs c + 1).toNat = (rfind xs c).toNat + 1 := by omega
      rw [hnn]
      simpa [List.getD] using this
    · simpa [List.getD] using h2
    · omega

theorem pyTake_length_le (n : Int) (h : 0 ≤ n) (s : List Char) :
    ((pyTake n s).length : Int) ≤ n := by
  simp only [pyTake, if_pos h, List.length_take]
  have : (min n.toNat s.length : Int) ≤ (n.toNat : Int) := by
    exact_mod_cast Nat.cast_le.mpr (Nat.min_le_left _ _)
  omega

theorem pyTake_length_le_self (n : Int) (s : List Char) :
    (pyTake n s).length ≤ s.length := by
  simp only [pyTake]
  split_ifs <;> simp [List.length_take]

theorem lastIdxOf_rfind (s : List Char) (c : Char) (h : 0 ≤ rfind s c) :
    lastIdxOf s c (rfind s c).toNat := by
  have hlt := rfind_lt_length s c
  refine ⟨by omega, getD_rfind s c h, ?_⟩
  intro j hj hij hc
  have := le_rfind_of_getD s c j hj hc
  omega

theorem zero_lt_rfind_of_getD (s : List Char) (c : Char) (j : Nat)
    (hj : j < s.length) (h0 : 0 < j) (hc : s.getD j ' ' = c) :
    0 < rfind s c := by
  have := le_rfind_of_getD s c j hj hc
  omega

theorem rfind_le_zero_of_not (s : List Char) (c : Char)
    (hno : ∀ j, j < s.length → 0 < j → s.getD j ' ' ≠ c) : rfind s c ≤ 0 := by
  by_contra hpos
  push_neg at hpos
  have hlt := rfind_lt_length s c
  have hget := getD_rfind s c (by omega)
  exact hno (rfind s c).toNat (by omega) (by omega) hget

/-! ## Helper lemmas about `finalize_text` -/

theorem finalize_text_ret_of_le (raw : List Char) (limit : Int)
    (h : (raw.length : Int) ≤ limit) : finalize_text raw limit = ⟨raw, true⟩ := by
  have hn : ¬ ((raw.length : Int) > limit) := by omega
  simp [finalize_text, hn]

theorem finalize_text_text_length_bound (raw : List Char) (limit : Int)
    (h : 1 ≤ limit) : ((finalize_text raw limit).text.length : Int) ≤ limit := by
  by_cases hlen : (raw.length : Int) > limit
  · have h0 : (0 : Int) ≤ limit := by omega
    have hw := pyTake_length_le limit h0 raw
    simp only [finalize_text, if_pos hlen]
    split_ifs with h1 h2 h3 <;> dsimp only
    · have hlt := rfind_lt_length (pyTake limit raw) '.'
      have hle := pyTake_length_le (rfind (pyTake limit raw) '.' + 1) (by omega) raw
      omega
    · have hlt := rfind_lt_length (pyTake limit raw) '!'
      have hle := pyTake_length_le (rfind (pyTake limit raw) '!' + 1) (by omega) raw
      omega
    · have hlt := rfind_lt_length (pyTake limit raw) '?'
      have hle := pyTake_length_le (rfind (pyTake limit raw) '?' + 1) (by omega) raw
      omega
    · exact hw
  · simp only [finalize_text, if_neg hlen]
    omega

/-! ## Sanity checks against the spec's worked examples -/

example : finalize_text "Solar panels hummed. Maya smiled wide".toList 20 =
    ⟨"Solar panels hummed.".toList, true⟩ := by decide

example : finalize_text "No punctuation here at all".toList 10 =
    ⟨"No punctua".toList, false⟩ := by decide

example : finalize_text "".toList 280 = ⟨[], true⟩ := by decide

/-! ## Claims about the finalizer -/

/-- C1: for every raw text and every integer limit ≥ 1, the string returned
by `finalize_text raw limit` has length at most `limit`. -/
theorem finalize_text_length_le (raw : List Char) (limit : Int)
    (h : 1 ≤ limit) : ((finalize_text raw limit).text.length : Int) ≤ limit :=
  finalize_text_text_length_bound raw limit h

theorem finalize_text_length_le_witness :
    (1 : Int) ≤ 5 ∧
      ((finalize_text "ab.cdefg".toList 5).text.length : Int) ≤ 5 :=
  ⟨by decide, finalize_text_length_le "ab.cdefg".toList 5 (by decide)⟩

/-- C8: for every raw text with `len(raw) ≤ limit` (including the empty
string and unpunctuated text), `finalize_text` returns the text unchanged
with `truncated_cleanly = true`. -/
theorem finalize_text_within_limit (raw : List Char) (limit : Int)
    (h : (raw.length : Int) ≤ limit) : finalize_text raw limit = ⟨raw, true⟩ :=
  finalize_text_ret_of_le raw limit h

theorem finalize_text_within_limit_witness :
    (((List.length ([] : List Char) : Int) ≤ 280) ∧
      finalize_text [] 280 = ⟨[], true⟩) ∧
    ((("hi".toList.length : Int) ≤ 280) ∧
      finalize_text "hi".toList 280 = ⟨"hi".toList, true⟩) :=
  ⟨⟨by decide, finalize_text_within_limit [] 280 (by decide)⟩,
   ⟨by decide, finalize_text_within_limit "hi".toList 280 (by decide)⟩⟩

/-- C5 counterexample: at `raw = "abc"`, `limit = 2 ≥ 1` the window holds no
punctuation, so the first pass hard-truncates with
`truncated_cleanly = false`, while the second pass keeps the short text and
reports `truncated_cleanly = true`: re-finalizing does not reproduce the
flag. -/
theorem finalize_text_idem_cex :
    (1 : Int) ≤ 2 ∧
      finalize_text (finalize_text "abc".toList 2).text 2 ≠
        finalize_text "abc".toList 2 := by
  decide

/-- C5 amended: the text component of `finalize_text` is idempotent for
every limit ≥ 1 (the `truncated_cleanly` flag is not preserved: a hard cut
re-finalizes to `truncated_cleanly = true`). -/
theorem finalize_text_text_idem (raw : List Char) (limit : Int)
    (h : 1 ≤ limit) :
    (finalize_text (finalize_text raw limit).text limit).text
      = (finalize_text raw limit).text := by
  rw [finalize_text_ret_of_le _ _ (finalize_text_text_length_bound raw limit h)]

theorem finalize_text_text_idem_witness :
    (1 : Int) ≤ 2 ∧
      (finalize_text (finalize_text "abc".toList 2).text 2).text
        = (finalize_text "abc".toList 2).text :=
  ⟨by decide, finalize_text_text_idem "abc".toList 2 (by decide)⟩

/-- C7: when the text exceeds the limit, any `.` at a positive index of the
window `raw[0:limit]` makes `finalize_text` cut at the last `.` of the
window (inclusive) with `truncated_cleanly = true`; and punctuation sitting
only at index 0 is treated as not found, leaving the hard cut with
`truncated_cleanly = false`. -/
theorem finalize_text_period_branch (raw : List Char) (limit : Int)
    (hlen : limit < (raw.length : Int)) :
    (∀ j, j < (pyTake limit raw).length → 0 < j →
        (pyTake limit raw).getD j ' ' = '.' →
        ∃ i : Nat, 0 < i ∧ lastIdxOf (pyTake limit raw) '.' i ∧
          finalize_text raw limit = ⟨pyTake ((i : Int) + 1) raw, true⟩) ∧
    ((∀ j, j < (pyTake limit raw).length → 0 < j →
        (pyTake limit raw).getD j ' ' ≠ '.' ∧
        (pyTake limit raw).getD j ' ' ≠ '!' ∧
        (pyTake limit raw).getD j ' ' ≠ '?') →
      finalize_text raw limit = ⟨pyTake limit raw, false⟩) := by
  constructor
  · intro j hj hj0 hjc
    have hpos : 0 < rfind (pyTake limit raw) '.' :=
      zero_lt_rfind_of_getD _ _ j hj hj0 hjc
    refine ⟨(rfind (pyTake limit raw) '.').toNat, by omega,
      lastIdxOf_rfind _ _ (by omega), ?_⟩
    have hcast : ((rfind (pyTake limit raw) '.').toNat : Int)
        = rfind (pyTake limit raw) '.' := Int.toNat_of_nonneg (by omega)
    rw [hcast]
    simp only [finalize_text,
      if_pos (show (raw.length : Int) > limit by omega), if_pos hpos]
  · intro hno
    have hdot : rfind (pyTake limit raw) '.' ≤ 0 :=
      rfind_le_zero_of_not _ _ (fun j hj hj0 => (hno j hj hj0).1)
    have hbang : rfind (pyTake limit raw) '!' ≤ 0 :=
      rfind_le_zero_of_not _ _ (fun j hj hj0 => (hno j hj hj0).2.1)
    have hq : rfind (pyTake limit raw) '?' ≤ 0 :=
      rfind_le_zero_of_not _ _ (fun j hj hj0 => (hno j hj hj0).2.2)
    simp only [finalize_text,
      if_pos (show (raw.length : Int) > limit by omega),
      if_neg (show ¬ 0 < rfind (pyTake limit raw) '.' by omega),
      if_neg (show ¬ 0 < rfind (pyTake limit raw) '!' by omega),
      if_neg (show ¬ 0 < rfind (pyTake limit raw) '?' by omega)]

theorem finalize_text_period_branch_witness :
    ((5 : Int) < ("ab.cdefg".toList.length : Int) ∧
      ∃ i : Nat, 0 < i ∧ lastIdxOf (pyTake 5 "ab.cdefg".toList) '.' i ∧
        finalize_text "ab.cdefg".toList 5 =
          ⟨pyTake ((i : Int) + 1) "ab.cdefg".toList, true⟩) ∧
    ((2 : Int) < (".abc".toList.length : Int) ∧
      finalize_text ".abc".toList 2 = ⟨pyTake 2 ".abc".toList, false⟩) :=
  ⟨⟨by decide, (finalize_text_period_branch "ab.cdefg".toList 5 (by decide)).1
      2 (by decide) (by decide) (by decide)⟩,
   ⟨by decide, (finalize_text_period_branch ".abc".toList 2 (by decide)).2
      (by decide)⟩⟩

/-- C2 counterexample: at `raw = "a!b?xyz"`, `limit = 5` the window
`"a!b?x"` has no `.`, its last `!` sits at index 1 and its last `?` at
index 3 (the later of the two), yet the code cuts at the `!`: the source
tries `'!'` before `'?'` and keeps the first hit, it does not take the
later punctuation mark. -/
theorem finalize_text_later_punct_cex :
    ((5 : Int) < ("a!b?xyz".toList.length : Int)) ∧
    rfind (pyTake 5 "a!b?xyz".toList) '.' ≤ 0 ∧
    rfind (pyTake 5 "a!b?xyz".toList) '!' = 1 ∧
    rfind (pyTake 5 "a!b?xyz".toList) '?' = 3 ∧
    finalize_text "a!b?xyz".toList 5 = ⟨"a!".toList, true⟩ ∧
    finalize_text "a!b?xyz".toList 5 ≠
      ⟨pyTake ((3 : Int) + 1) "a!b?xyz".toList, true⟩ := by
  decide

/-- C2 amended: when the text exceeds the limit and the window has no `.`
at a positive index, `finalize_text` cuts at the last `!` of the window if
one sits at a positive index — `!` takes priority over `?` regardless of
position — and only otherwise at the last `?` at a positive index, with
`truncated_cleanly = true` in both cases. -/
theorem finalize_text_bang_question (raw : List Char) (limit : Int)
    (hlen : limit < (raw.length : Int))
    (hnop : ∀ j, j < (pyTake limit raw).length → 0 < j →
      (pyTake limit raw).getD j ' ' ≠ '.') :
    (∀ j, j < (pyTake limit raw).length → 0 < j →
        (pyTake limit raw).getD j ' ' = '!' →
        ∃ i : Nat, 0 < i ∧ lastIdxOf (pyTake limit raw) '!' i ∧
          finalize_text raw limit = ⟨pyTake ((i : Int) + 1) raw, true⟩) ∧
    ((∀ j, j < (pyTake limit raw).length → 0 < j →
        (pyTake limit raw).getD j ' ' ≠ '!') →
      ∀ j, j < (pyTake limit raw).length → 0 < j →
        (pyTake limit raw).getD j ' ' = '?' →
        ∃ i : Nat, 0 < i ∧ lastIdxOf (pyTake limit raw) '?' i ∧
          finalize_text raw limit = ⟨pyTake ((i : Int) + 1) raw, true⟩) := by
  have hdot : rfind (pyTake limit raw) '.' ≤ 0 :=
    rfind_le_zero_of_not _ _ hnop
  constructor
  · intro j hj hj0 hjc
    have hpos : 0 < rfind (pyTake limit raw) '!' :=
      zero_lt_rfind_of_getD _ _ j hj hj0 hjc
    refine ⟨(rfind (pyTake limit raw) '!').toNat, by omega,
      lastIdxOf_rfind _ _ (by omega), ?_⟩
    have hcast : ((rfind (pyTake limit raw) '!').toNat : Int)
        = rfind (pyTake limit raw) '!' := Int.toNat_of_nonneg (by omega)
    rw [hcast]
    simp only [finalize_text,
      if_pos (show (raw.length : Int) > limit by omega),
      if_neg (show ¬ 0 < rfind (pyTake limit raw) '.' by omega), if_pos hpos]
  · intro hnob j hj hj0 hjc
    have hbang : rfind (pyTake limit raw) '!' ≤ 0 :=
      rfind_le_zero_of_not _ _ hnob
    have hpos : 0 < rfind (pyTake limit raw) '?' :=
      zero_lt_rfind_of_getD _ _ j hj hj0 hjc
    refine ⟨(rfind (pyTake limit raw) '?').toNat, by omega,
      lastIdxOf_rfind _ _ (by omega), ?_⟩
    have hcast : ((rfind (pyTake limit raw) '?').toNat : Int)
        = rfind (pyTake limit raw) '?' := Int.toNat_of_nonneg (by omega)
    rw [hcast]
    simp only [finalize_text,
      if_pos (show (raw.length : Int) > limit by omega),
      if_neg (show ¬ 0 < rfind (pyTake limit raw) '.' by omega),
      if_neg (show ¬ 0 < rfind (pyTake limit raw) '!' by omega), if_pos hpos]

theorem finalize_text_bang_question_witness :
    ((5 : Int) < ("a!b?xyz".toList.length : Int)) ∧
    (∃ i : Nat, 0 < i ∧ lastIdxOf (pyTake 5 "a!b?xyz".toList) '!' i ∧
      finalize_text "a!b?xyz".toList 5 =
        ⟨pyTake ((i : Int) + 1) "a!b?xyz".toList, true⟩) :=
  ⟨by decide,
    (finalize_text_bang_question "a!b?xyz".toList 5 (by decide) (by decide)).1
      1 (by decide) (by decide) (by decide)⟩

/-- C6 counterexample: at `limit = 0 < 1` the finalizer does not raise
`InvalidBudget` — the source has no limit validation — it returns an
ordinary hard-truncated value. -/
theorem finalize_textE_zero_limit_cex :
    (0 : Int) < 1 ∧
    finalize_textE "ab".toList 0 = .ok ⟨[], false⟩ ∧
    finalize_textE "ab".toList 0 ≠ .error FinalizeError.invalidBudget := by
  refine ⟨by decide, rfl, ?_⟩
  intro h
  rw [show finalize_textE "ab".toList 0 = Except.ok ⟨[], false⟩ from rfl] at h
  exact Except.noConfusion h

/-- C6 amended: `finalize_text` never raises, for any limit and any raw
text: every branch returns a value, there is no `InvalidBudget` check in
the code. -/
theorem finalize_textE_never_raises (raw : List Char) (limit : Int) :
    finalize_textE raw limit = .ok (finalize_text raw limit) := by
  simp only [finalize_textE, finalize_text]
  split_ifs <;> rfl

/-! ## Step lemmas for the retry loops -/

theorem retryLoop_step_ok (op : Nat → Except String String) (r attempt : Nat)
    (d bf : ℚ) (lastExc : Option String) (calls : Nat) (waits : List ℚ)
    (v : String) (h : op attempt = .ok v) :
    retryLoop op (r + 1) attempt d bf lastExc calls waits =
      ⟨.ok v, calls + 1, waits⟩ := by
  simp only [retryLoop, h]

theorem retryLoop_step_err_one (op : Nat → Except String String)
    (attempt : Nat) (d bf : ℚ) (lastExc : Option String) (calls : Nat)
    (waits : List ℚ) (e : String) (h : op attempt = .error e) :
    retryLoop op 1 attempt d bf lastExc calls waits =
      ⟨.error (.bare e), calls + 1, waits⟩ := by
  simp only [retryLoop, h]

theorem retryLoop_step_err (op : Nat → Except String String) (r attempt : Nat)
    (d bf : ℚ) (lastExc : Option String) (calls : Nat) (waits : List ℚ)
    (e : String) (h : op attempt = .error e) :
    retryLoop op (r + 2) attempt d bf lastExc calls waits =
      retryLoop op (r + 1) (attempt + 1) (d * bf) bf (some e) (calls + 1)
        (waits ++ [d]) := by
  rw [retryLoop.eq_def]
  dsimp only
  rw [h]

theorem imageRetryLoop_step_ok {α : Type} (op : Nat → Except String α)
    (m r attempt : Nat) (lastError : Option String) (calls : Nat)
    (waits : List ℚ) (v : α) (h : op attempt = .ok v) :
    imageRetryLoop op m (r + 1) attempt lastError calls waits =
      ⟨.ok v, calls + 1, waits⟩ := by
  simp only [imageRetryLoop, h]

theorem imageRetryLoop_step_err_one {α : Type} (op : Nat → Except String α)
    (m attempt : Nat) (lastError : Option String) (calls : Nat)
    (waits : List ℚ) (e : String) (h : op attempt = .error e) :
    imageRetryLoop op m 1 attempt lastError calls waits =
      ⟨.error (.wrapped m (some e)), calls + 1, waits⟩ := by
  simp only [imageRetryLoop, h]

theorem imageRetryLoop_step_err {α : Type} (op : Nat → Except String α)
    (m r attempt : Nat) (lastError : Option String) (calls : Nat)
    (waits : List ℚ) (e : String) (h : op attempt = .error e) :
    imageRetryLoop op m (r + 2) attempt lastError calls waits =
      imageRetryLoop op m (r + 1) (attempt + 1) (some e) (calls + 1)
        (waits ++ [RETRY_DELAY * ((attempt : ℚ) + 1)]) := by
  rw [imageRetryLoop.eq_def]
  dsimp only
  rw [h]

/-! ## Behaviour of the loops under always-failing operations -/

theorem retryLoop_all_fail (op : Nat → Except String String) (bf : ℚ)
    (msg : Nat → String) :
    ∀ (r attempt : Nat) (d : ℚ) (lastExc : Option String) (calls : Nat)
      (waits : List ℚ),
      (∀ j, j ≤ r → op (attempt + j) = .error (msg (attempt + j))) →
      (retryLoop op (r + 1) attempt d bf lastExc calls waits).result
          = .error (.bare (msg (attempt + r))) ∧
        (retryLoop op (r + 1) attempt d bf lastExc calls waits).calls
          = calls + r + 1 := by
  intro r
  induction r with
  | zero =>
    intro attempt d lastExc calls waits hfail
    have h0 : op attempt = .error (msg attempt) := by
      simpa using hfail 0 (by omega)
    rw [retryLoop_step_err_one op attempt d bf lastExc calls waits _ h0]
    exact ⟨rfl, rfl⟩
  | succ r ih =>
    intro attempt d lastExc calls waits hfail
    have h0 : op attempt = .error (msg attempt) := by
      simpa using hfail 0 (by omega)
    rw [retryLoop_step_err op r attempt d bf lastExc calls waits _ h0]
    have hrec := ih (attempt + 1) (d * bf) (some (msg attempt)) (calls + 1)
      (waits ++ [d]) (fun j hj => by
        have := hfail (j + 1) (by omega)
        have harr : attempt + (j + 1) = attempt + 1 + j := by omega
        rwa [harr] at this)
    have hidx : attempt + 1 + r = attempt + (r + 1) := by omega
    rw [hidx] at hrec
    refine ⟨hrec.1, ?_⟩
    rw [hrec.2]
    omega

theorem imageRetryLoop_all_fail {α : Type} (op : Nat → Except String α)
    (m : Nat) (msg : Nat → String) :
    ∀ (r attempt : Nat) (lastError : Option String) (calls : Nat)
      (waits : List ℚ),
      (∀ j, j ≤ r → op (attempt + j) = .error (msg (attempt + j))) →
      (imageRetryLoop op m (r + 1) attempt lastError calls waits).result
          = .error (.wrapped m (some (msg (attempt + r)))) ∧
        (imageRetryLoop op m (r + 1) attempt lastError calls waits).calls
          = calls + r + 1 := by
  intro r
  induction r with
  | zero =>
    intro attempt lastError calls waits hfail
    have h0 : op attempt = .error (msg attempt) := by
      simpa using hfail 0 (by omega)
    rw [imageRetryLoop_step_err_one op m attempt lastError calls waits _ h0]
    exact ⟨rfl, rfl⟩
  | succ r ih =>
    intro attempt lastError calls waits hfail
    have h0 : op attempt = .error (msg attempt) := by
      simpa using hfail 0 (by omega)
    rw [imageRetryLoop_step_err op m r attempt lastError calls waits _ h0]
    have hrec := ih (attempt + 1) (some (msg attempt)) (calls + 1)
      (waits ++ [RETRY_DELAY * ((attempt : ℚ) + 1)]) (fun j hj => by
        have := hfail (j + 1) (by omega)
        have harr : attempt + (j + 1) = attempt + 1 + j := by omega
        rwa [harr] at this)
    have hidx : attempt + 1 + r = attempt + (r + 1) := by omega
    rw [hidx] at hrec
    refine ⟨hrec.1, ?_⟩
    rw [hrec.2]
    omega

/-- The loop returns the first success, after `k` failures with one backoff
wait per failure: `d`, `d*bf`, ..., `d*bf^(k-1)`, appended in order. -/
theorem retryLoop_ok (op : Nat → Except String String) (bf : ℚ) (v : String)
    (msg : Nat → String) :
    ∀ (k r attempt : Nat) (d : ℚ) (lastExc : Option String) (calls : Nat)
      (waits : List ℚ),
      k ≤ r →
      (∀ j, j < k → op (attempt + j) = .error (msg (attempt + j))) →
      op (attempt + k) = .ok v →
      retryLoop op (r + 1) attempt d bf lastExc calls waits =
        ⟨.ok v, calls + k + 1,
          waits ++ (List.range k).map (fun j => d * bf ^ j)⟩ := by
  intro k
  induction k with
  | zero =>
    intro r attempt d lastExc calls waits _ _ hsucc
    rw [Nat.add_zero] at hsucc
    rw [retryLoop_step_ok op r attempt d bf lastExc calls waits v hsucc]
    simp
  | succ k ih =>
    intro r attempt d lastExc calls waits hk hfail hsucc
    obtain ⟨r', rfl⟩ : ∃ r', r = r' + 1 := ⟨r - 1, by omega⟩
    have h0 : op attempt = .error (msg attempt) := by
      simpa using hfail 0 (by omega)
    rw [retryLoop_step_err op r' attempt d bf lastExc calls waits _ h0]
    have hrec := ih r' (attempt + 1) (d * bf) (some (msg attempt)) (calls + 1)
      (waits ++ [d]) (by omega)
      (fun j hj => by
        have := hfail (j + 1) (by omega)
        have harr : attempt + (j + 1) = attempt + 1 + j := by omega
        rwa [harr] at this)
      (by
        have harr : attempt + (k + 1) = attempt + 1 + k := by omega
        rwa [harr] at hsucc)
    rw [hrec]
    have hfun : ((fun j => d * bf ^ j) ∘ Nat.succ) = fun j => d * bf * bf ^ j := by
      funext j
      simp only [Function.comp, pow_succ]
      ring
    congr 1
    · omega
    · rw [List.range_succ_eq_map, List.map_cons, List.map_map, hfun]
      simp [List.append_assoc]

/-! ## Claims about the retry loops and the tweet poster -/

/-- C3 counterexample: `GeminiClient.retry_with_backoff` with
`max_retries = 2` and an operation always failing with `"boom"` invokes the
operation twice and then re-raises the bare last exception (`boom`), not a
fresh exhaustion error carrying the attempt count (`raise last_exception`
in src/src/api/gemini.py line 188). -/
theorem retry_with_backoff_exhaust_cex :
    retry_with_backoff (fun _ => .error "boom") 2 1 2 =
      ⟨.error (.bare "boom"), 2, [1]⟩ ∧
    (retry_with_backoff (fun _ => .error "boom") 2 1 2).result ≠
      .error (.wrapped 2 (some "boom")) := by
  refine ⟨rfl, ?_⟩
  intro h
  rw [show (retry_with_backoff (fun _ => .error "boom") 2 1 2).result
      = Except.error (RaisedError.bare "boom") from rfl] at h
  injection h with h'
  exact RaisedError.noConfusion h'

/-- C3 amended: with an operation failing on every attempt and any bound
`max_attempts ≥ 1`, both retry loops invoke the operation exactly
`max_attempts` times; the image-generation loop then raises an exhaustion
error carrying the attempt count and the message of the last (not the
first) failure, while the text-generation loop re-raises the last
encountered exception itself, which carries the last message but no
attempt count. -/
theorem retry_exhaustion_behavior (α : Type) (msg : Nat → String) (n : Nat)
    (hn : 1 ≤ n) (d bf : ℚ) :
    (generate_image_retry
        (fun i => (Except.error (msg i) : Except String α)) n).result
      = .error (.wrapped n (some (msg (n - 1)))) ∧
    (generate_image_retry
        (fun i => (Except.error (msg i) : Except String α)) n).calls = n ∧
    (retry_with_backoff (fun i => .error (msg i)) (n : Int) d bf).result
      = .error (.bare (msg (n - 1))) ∧
    (retry_with_backoff (fun i => .error (msg i)) (n : Int) d bf).calls
      = n := by
  obtain ⟨m, rfl⟩ : ∃ m, n = m + 1 := ⟨n - 1, by omega⟩
  have himg := imageRetryLoop_all_fail
    (fun i => (Except.error (msg i) : Except String α)) (m + 1) msg m 0 none 0
    [] (fun j _ => rfl)
  have hgem := retryLoop_all_fail (fun i => .error (msg i)) bf msg m 0 d none
    0 [] (fun j _ => rfl)
  have htn : ((m + 1 : Nat) : Int).toNat = m + 1 := by omega
  refine ⟨?_, ?_, ?_, ?_⟩
  · simpa [generate_image_retry] using himg.1
  · simpa [generate_image_retry] using himg.2
  · rw [show retry_with_backoff (fun i => .error (msg i)) ((m + 1 : Nat) : Int) d bf
        = retryLoop (fun i => .error (msg i)) ((m + 1 : Nat) : Int).toNat 0 d bf
            none 0 [] from rfl, htn]
    simpa using hgem.1
  · rw [show retry_with_backoff (fun i => .error (msg i)) ((m + 1 : Nat) : Int) d bf
        = retryLoop (fun i => .error (msg i)) ((m + 1 : Nat) : Int).toNat 0 d bf
            none 0 [] from rfl, htn]
    simpa using hgem.2

theorem retry_exhaustion_behavior_witness :
    1 ≤ 2 ∧
    ((generate_image_retry
        (fun _ : Nat => (Except.error "boom" : Except String String)) 2).result
      = .error (.wrapped 2 (some "boom")) ∧
    (generate_image_retry
        (fun _ : Nat => (Except.error "boom" : Except String String)) 2).calls = 2 ∧
    (retry_with_backoff (fun _ => .error "boom") (2 : Int) 1 2).result
      = .error (.bare "boom") ∧
    (retry_with_backoff (fun _ => .error "boom") (2 : Int) 1 2).calls = 2) :=
  ⟨by decide, retry_exhaustion_behavior String (fun _ => "boom") 2 (by decide) 1 2⟩

/-- C4: when the operation fails on the first `n - 1` attempts and succeeds
on attempt `n` with `1 ≤ n ≤ max_retries`, `retry_with_backoff` returns the
success value, invokes the operation exactly `n` times, and sleeps exactly
`n - 1` times, the waits being `d*bf^0, d*bf^1, ..., d*bf^(n-2)` in order. -/
theorem retry_with_backoff_success (op : Nat → Except String String)
    (msg : Nat → String) (v : String) (n : Nat) (maxR : Int) (d bf : ℚ)
    (hn : 1 ≤ n) (hmax : (n : Int) ≤ maxR)
    (hfail : ∀ i, i < n - 1 → op i = .error (msg i))
    (hsucc : op (n - 1) = .ok v) :
    retry_with_backoff op maxR d bf =
      ⟨.ok v, n, (List.range (n - 1)).map (fun k => d * bf ^ k)⟩ := by
  obtain ⟨R, hR⟩ : ∃ R, maxR.toNat = R + 1 := ⟨maxR.toNat - 1, by omega⟩
  have hk : n - 1 ≤ R := by omega
  have hloop := retryLoop_ok op bf v msg (n - 1) R 0 d none 0 [] hk
    (fun j hj => by simpa using hfail j (by omega))
    (by simpa using hsucc)
  rw [show retry_with_backoff op maxR d bf
      = retryLoop op maxR.toNat 0 d bf none 0 [] from rfl, hR, hloop]
  congr 1
  omega

/-- A concrete operation failing twice then succeeding, for the C4
witness. -/
def c4op : Nat → Except String String :=
  fun i => if i < 2 then .error (toString i) else .ok "X"

theorem retry_with_backoff_success_witness :
    1 ≤ 3 ∧ ((3 : Nat) : Int) ≤ 3 ∧
    retry_with_backoff c4op 3 1 2 =
      ⟨.ok "X", 3, (List.range 2).map (fun k => (1 : ℚ) * 2 ^ k)⟩ :=
  ⟨by decide, by decide,
    retry_with_backoff_success c4op toString "X" 3 3 1 2 (by decide) (by decide)
      (fun i hi => by
        have h2 : i < 2 := by omega
        match i, h2 with
        | 0, _ => rfl
        | 1, _ => rfl)
      rfl⟩

/-- C9: `retry_with_backoff` with `max_retries ≤ 0` runs `range(max_retries)`
zero times, records no exception, skips the re-raise and returns the empty
string: zero invocations, no error. -/
theorem retry_with_backoff_nonpos (op : Nat → Except String String)
    (maxR : Int) (d bf : ℚ) (h : maxR ≤ 0) :
    retry_with_backoff op maxR d bf = ⟨.ok "", 0, []⟩ := by
  have htn : maxR.toNat = 0 := by omega
  rw [show retry_with_backoff op maxR d bf
      = retryLoop op maxR.toNat 0 d bf none 0 [] from rfl, htn]
  rfl

theorem retry_with_backoff_nonpos_witness :
    (0 : Int) ≤ 0 ∧
      retry_with_backoff (fun _ => .error "boom") 0 1 2 = ⟨.ok "", 0, []⟩ :=
  ⟨by decide, retry_with_backoff_nonpos (fun _ => .error "boom") 0 1 2 (by decide)⟩

/-- C10: `post_tweet` posts text of length at most 280 unchanged; longer
text is replaced by its first 277 characters followed by `"..."`, of length
exactly 280; the posted text never exceeds 280 characters. -/
theorem post_tweet_text_length (text : List Char) :
    (post_tweet_text text).length ≤ 280 ∧
    (text.length ≤ 280 → post_tweet_text text = text) ∧
    (280 < text.length →
      post_tweet_text text = text.take 277 ++ ['.', '.', '.'] ∧
      (post_tweet_text text).length = 280) := by
  by_cases h : 280 < text.length
  · have ht : (text.take 277).length = 277 := by
      rw [List.length_take]
      omega
    refine ⟨?_, ?_, fun _ => ⟨by simp [post_tweet_text, h], ?_⟩⟩
    · simp [post_tweet_text, h, ht]
    · intro h2
      omega
    · simp [post_tweet_text, h, ht]
  · refine ⟨?_, fun _ => ?_, fun h2 => absurd h2 h⟩
    · simp [post_tweet_text, h]
      omega
    · simp [post_tweet_text, h]

theorem post_tweet_text_length_witness :
    280 < (List.replicate 300 'a').length ∧
    post_tweet_text (List.replicate 300 'a') =
      (List.replicate 300 'a').take 277 ++ ['.', '.', '.'] ∧
    (post_tweet_text (List.replicate 300 'a')).length = 280 :=
  ⟨by simp only [List.length_replicate]; omega,
    (post_tweet_text_length (List.replicate 300 'a')).2.2
      (by simp only [List.length_replicate]; omega)⟩
